import Mathlib

/-!
Shallow embedding of the forum backend's vote / reply / tag logic
(routes/votes.js, routes/replies.js, routes/tags.js, routes/users.js,
models/Thread.js, models/Tag.js) and proofs about it.

Users are identified by `Nat` ids (Mongo ObjectIds compared with
`toString()` equality in the source).
-/

/-- Vote type enum from models/Thread.js voteSchema (`enum: ['upvote','downvote']`). -/
inductive VoteType where
  | upvote
  | downvote
deriving DecidableEq, Repr

/-- One vote record `{ user, type }` from voteSchema. -/
structure Vote where
  user : Nat
  type : VoteType
deriving DecidableEq, Repr

/-- `['upvote','downvote'].includes(type)` parsing of the request body's
`type` string (routes/votes.js lines 11-15). -/
def parseVoteType (s : String) : Option VoteType :=
  if s = "upvote" then some VoteType.upvote
  else if s = "downvote" then some VoteType.downvote
  else none

/-- The vote branching of routes/votes.js lines 22-48 (thread votes) and
lines 97-122 (reply votes, verbatim the same logic): find the first vote
by `voter` (`findIndex`); if found with the same type remove it
(`splice(i,1)`), if found with the other type flip it in place, otherwise
push a new vote at the end. Returns the new vote list and `voteChange`. -/
def castVoteList (voter : Nat) (t : VoteType) : List Vote → List Vote × Int
  | [] => ([⟨voter, t⟩], if t = VoteType.upvote then 1 else -1)
  | v :: rest =>
    if v.user = voter then
      if v.type = t then
        (rest, if t = VoteType.upvote then -1 else 1)
      else
        (⟨voter, t⟩ :: rest, if t = VoteType.upvote then 2 else -2)
    else
      let r := castVoteList voter t rest
      (v :: r.1, r.2)

/-- `votes.filter(v => v.type === t).length` (routes/votes.js lines 60-61). -/
def countVotes (t : VoteType) (votes : List Vote) : Nat :=
  (votes.filter (fun v => v.type = t)).length

/-- `voteScore = upvotes - downvotes` (routes/votes.js line 62). -/
def voteScore (votes : List Vote) : Int :=
  (countVotes VoteType.upvote votes : Int) - (countVotes VoteType.downvote votes : Int)

/-- Author reputation update `Math.max(0, author.reputation + voteChange)`
(routes/votes.js line 55 and line 145). -/
def adjustRep (rep : Int) (delta : Int) : Int :=
  max 0 (rep + delta)

/-- One embedded reply document from models/Thread.js replySchema: its id,
`author`, `content`, `parentReply`, `votes`, `isEdited` flag and nested
`replies` (children). `editedAt`/`createdAt` dates are omitted; no claim
mentions them. -/
inductive Reply where
  | mk (rid : Nat) (author : Nat) (content : String) (parentReply : Option Nat)
      (votes : List Vote) (isEdited : Bool) (children : List Reply)

/-- Id (`_id`) of a reply node. -/
def Reply.rid : Reply → Nat
  | .mk i _ _ _ _ _ _ => i

/-- Author of a reply node. -/
def Reply.author : Reply → Nat
  | .mk _ a _ _ _ _ _ => a

/-- Vote list of a reply node. -/
def Reply.votes : Reply → List Vote
  | .mk _ _ _ _ vs _ _ => vs

/-- Children (`replies`) of a reply node. -/
def Reply.children : Reply → List Reply
  | .mk _ _ _ _ _ _ ch => ch

/-- Thread document from models/Thread.js threadSchema, restricted to the
fields the reply/vote routes read or write: `author`, `votes`, `replies`,
`isLocked`. -/
structure Thread where
  author : Nat
  votes : List Vote
  replies : List Reply
  isLocked : Bool

/-- Depth-first search for the reply with id `rid`, the traversal shared by
all the reply-route helpers (check the node itself, then its nested
`replies`, then the next sibling), as a pure locate returning the found
node. -/
def findReplyForest (rid : Nat) : List Reply → Option Reply
  | [] => none
  | (.mk i a c p vs e ch) :: rs =>
    if i = rid then some (.mk i a c p vs e ch)
    else
      match findReplyForest rid ch with
      | some x => some x
      | none => findReplyForest rid rs

/-- `findAndVoteReply` from routes/votes.js lines 93-133: locate the reply
with id `rid` depth-first and apply the vote branching to its vote list.
Returns the rewritten forest, `voteChange`, the reply's author and the
reply's new vote list (the source returns the mutated reply by reference;
the handler then reads `result.voteChange`, `result.reply.author` and
`result.reply.votes`). -/
def findAndVoteReply (rid voter : Nat) (t : VoteType) :
    List Reply → Option (List Reply × Int × Nat × List Vote)
  | [] => none
  | (.mk i a c p vs e ch) :: rs =>
    if i = rid then
      let r := castVoteList voter t vs
      some (Reply.mk i a c p r.1 e ch :: rs, r.2, a, r.1)
    else
      match findAndVoteReply rid voter t ch with
      | some (ch2, d, au, nv) => some (Reply.mk i a c p vs e ch2 :: rs, d, au, nv)
      | none =>
        match findAndVoteReply rid voter t rs with
        | some (rs2, d, au, nv) => some (Reply.mk i a c p vs e ch :: rs2, d, au, nv)
        | none => none

/-- `findAndAddReply` from routes/replies.js lines 33-46: locate the parent
reply with id `pid` depth-first and push `newR` at the end of its child
list. Returns `none` when no node has id `pid` (the handler then answers
404 without saving, so the tree is untouched). -/
def findAndAddReply (pid : Nat) (newR : Reply) : List Reply → Option (List Reply)
  | [] => none
  | (.mk i a c p vs e ch) :: rs =>
    if i = pid then some (Reply.mk i a c p vs e (ch ++ [newR]) :: rs)
    else
      match findAndAddReply pid newR ch with
      | some ch2 => some (Reply.mk i a c p vs e ch2 :: rs)
      | none =>
        match findAndAddReply pid newR rs with
        | some rs2 => some (Reply.mk i a c p vs e ch :: rs2)
        | none => none

/-- Result of a tree edit that carries the source's authorization check:
`notFound` maps to 404, `notAuthorized` to the thrown
`Not authorized` error (403). -/
inductive TreeEdit where
  | notFound
  | notAuthorized
  | ok (f : List Reply)

/-- `findAndRemoveReply` from routes/replies.js lines 170-192: locate the
reply depth-first; on a match, throw unless the requester is the author or
an admin, otherwise `splice` the node (with its whole embedded subtree)
out of its sibling array. -/
def removeReplyForest (rid uid : Nat) (role : String) : List Reply → TreeEdit
  | [] => .notFound
  | (.mk i a c p vs e ch) :: rs =>
    if i = rid then
      if uid = a ∨ role = "admin" then .ok rs else .notAuthorized
    else
      match removeReplyForest rid uid role ch with
      | .ok ch2 => .ok (Reply.mk i a c p vs e ch2 :: rs)
      | .notAuthorized => .notAuthorized
      | .notFound =>
        match removeReplyForest rid uid role rs with
        | .ok rs2 => .ok (Reply.mk i a c p vs e ch :: rs2)
        | x => x

/-- `findAndUpdateReply` from routes/replies.js lines 113-133: locate the
reply depth-first; on a match, throw unless the requester is the author or
an admin, otherwise overwrite `content` and set `isEdited`. -/
def findAndUpdateReply (rid uid : Nat) (role : String) (content : String) :
    List Reply → TreeEdit
  | [] => .notFound
  | (.mk i a c p vs e ch) :: rs =>
    if i = rid then
      if uid = a ∨ role = "admin" then .ok (Reply.mk i a content p vs true ch :: rs)
      else .notAuthorized
    else
      match findAndUpdateReply rid uid role content ch with
      | .ok ch2 => .ok (Reply.mk i a c p vs e ch2 :: rs)
      | .notAuthorized => .notAuthorized
      | .notFound =>
        match findAndUpdateReply rid uid role content rs with
        | .ok rs2 => .ok (Reply.mk i a c p vs e ch :: rs2)
        | x => x

/-- `calculateReplyStats` from routes/votes.js lines 180-196: recursively
sum the upvote and downvote tallies of every node of the forest, the node
itself and all descendants included. -/
def calculateReplyStats : List Reply → Nat × Nat
  | [] => (0, 0)
  | (.mk _ _ _ _ vs _ ch) :: rs =>
    let n := calculateReplyStats ch
    let m := calculateReplyStats rs
    (countVotes VoteType.upvote vs + n.1 + m.1,
     countVotes VoteType.downvote vs + n.2 + m.2)

/-- Number of reply nodes in a forest, all depths included (used to state
that a removal drops a node together with its whole subtree). -/
def countReplies : List Reply → Nat
  | [] => 0
  | (.mk _ _ _ _ _ _ ch) :: rs => 1 + countReplies ch + countReplies rs

/-- Invariant: every node of the forest holds at most one vote per voter. -/
def forestNodup : List Reply → Prop
  | [] => True
  | (.mk _ _ _ _ vs _ ch) :: rs =>
    (vs.map Vote.user).Nodup ∧ forestNodup ch ∧ forestNodup rs

/-- Error answers of the vote routes: 400 `Invalid vote type` and 404
`Thread not found` / `Reply not found` (routes/votes.js). -/
inductive VoteErr where
  | invalidVote
  | notFound
deriving DecidableEq, Repr

/-- Success payload of a vote route: the mutated vote list, `voteChange`,
the reported `voteScore`, the voter's current vote (`userVote`), and the
author whose reputation receives the delta. -/
structure VoteOutcome where
  votes : List Vote
  voteChange : Int
  score : Int
  userVote : Option VoteType
  author : Nat
deriving DecidableEq, Repr

/-- `POST /threads/:threadId` vote handler (routes/votes.js lines 9-76):
reject an unrecognized `type` (400), then a missing thread (404), then
apply the vote branching to the thread's votes, report
`voteScore = upvotes - downvotes` over the mutated list and the voter's
current vote, and hand `voteChange` to the author's reputation update. -/
def voteOnThread (th? : Option Thread) (voter : Nat) (typeStr : String) :
    Except VoteErr (Thread × VoteOutcome) :=
  if typeStr = "upvote" ∨ typeStr = "downvote" then
    match th? with
    | none => Except.error VoteErr.notFound
    | some th =>
      let t := if typeStr = "upvote" then VoteType.upvote else VoteType.downvote
      let r := castVoteList voter t th.votes
      Except.ok (Thread.mk th.author r.1 th.replies th.isLocked,
        VoteOutcome.mk r.1 r.2 (voteScore r.1)
          ((r.1.find? (fun v => v.user = voter)).map Vote.type) th.author)
  else Except.error VoteErr.invalidVote

/-- `POST /threads/:threadId/replies/:replyId` vote handler
(routes/votes.js lines 79-166): same checks, then `findAndVoteReply` over
the thread's reply forest; 404 `Reply not found` when the search fails. -/
def voteOnReply (th? : Option Thread) (voter : Nat) (replyId : Nat) (typeStr : String) :
    Except VoteErr (Thread × VoteOutcome) :=
  if typeStr = "upvote" ∨ typeStr = "downvote" then
    match th? with
    | none => Except.error VoteErr.notFound
    | some th =>
      let t := if typeStr = "upvote" then VoteType.upvote else VoteType.downvote
      match findAndVoteReply replyId voter t th.replies with
      | none => Except.error VoteErr.notFound
      | some (f, d, au, nv) =>
        Except.ok (Thread.mk th.author th.votes f th.isLocked,
          VoteOutcome.mk nv d (voteScore nv)
            ((nv.find? (fun v => v.user = voter)).map Vote.type) au)
  else Except.error VoteErr.invalidVote

/-- Error answers of the reply routes: 404 (`Thread not found`,
`Parent reply not found`, `Reply not found`) and 403 (`Thread is locked`,
`Not authorized`). -/
inductive ReplyErr where
  | notFound
  | forbidden
deriving DecidableEq, Repr

/-- `POST /:threadId` add-reply handler (routes/replies.js lines 9-58):
404 on a missing thread, 403 on a locked thread, then either push a
top-level reply or insert under `parentReplyId` via `findAndAddReply`
(404 when the parent is not found, leaving the thread unsaved). `newId`
stands for the id the database assigns to the new reply document. -/
def addReply (th? : Option Thread) (uid : Nat) (content : String)
    (parentReplyId : Option Nat) (newId : Nat) : Except ReplyErr Thread :=
  match th? with
  | none => Except.error ReplyErr.notFound
  | some th =>
    if th.isLocked then Except.error ReplyErr.forbidden
    else
      let newR : Reply := Reply.mk newId uid content parentReplyId [] false []
      match parentReplyId with
      | some pid =>
        match findAndAddReply pid newR th.replies with
        | some f => Except.ok (Thread.mk th.author th.votes f th.isLocked)
        | none => Except.error ReplyErr.notFound
      | none =>
        Except.ok (Thread.mk th.author th.votes (th.replies ++ [newR]) th.isLocked)

/-- `PUT /:threadId/replies/:replyId` update handler (routes/replies.js
lines 103-159): 404 on a missing thread or reply, 403 when the requester
is neither the reply's author nor an admin; no lock check. -/
def updateReply (th? : Option Thread) (uid : Nat) (role : String) (rid : Nat)
    (content : String) : Except ReplyErr Thread :=
  match th? with
  | none => Except.error ReplyErr.notFound
  | some th =>
    match findAndUpdateReply rid uid role content th.replies with
    | .ok f => Except.ok (Thread.mk th.author th.votes f th.isLocked)
    | .notFound => Except.error ReplyErr.notFound
    | .notAuthorized => Except.error ReplyErr.forbidden

/-- `DELETE /:threadId/replies/:replyId` handler (routes/replies.js lines
162-210): 404 on a missing thread or reply, 403 when the requester is
neither the reply's author nor an admin, otherwise the spliced forest. -/
def deleteReply (th? : Option Thread) (uid : Nat) (role : String) (rid : Nat) :
    Except ReplyErr Thread :=
  match th? with
  | none => Except.error ReplyErr.notFound
  | some th =>
    match removeReplyForest rid uid role th.replies with
    | .ok f => Except.ok (Thread.mk th.author th.votes f th.isLocked)
    | .notFound => Except.error ReplyErr.notFound
    | .notAuthorized => Except.error ReplyErr.forbidden

/-- One vote cast after another on a single thread owned by one author,
threading the vote list and the author's reputation: each step is the
vote branching of `POST /threads/:threadId` followed by the reputation
update `Math.max(0, reputation + voteChange)` (routes/votes.js lines
22-57). Each cast is a pair (voter, recognized vote type). -/
def applyCasts : List (Nat × VoteType) → List Vote × Int → List Vote × Int
  | [], s => s
  | (voter, t) :: rest, s =>
    let r := castVoteList voter t s.1
    applyCasts rest (r.1, adjustRep s.2 r.2)

/-- Tag document from models/Tag.js: id, lowercase `name`, denormalized
`usageCount`. -/
structure TagRec where
  tid : Nat
  name : String
  usageCount : Nat
deriving DecidableEq, Repr

/-- `tag.usageCount += 1; await tag.save()` on the tag document with id
`tid` (routes/users.js lines 315-316). -/
def incTagById (tid : Nat) (tags : List TagRec) : List TagRec :=
  tags.map (fun x => if x.tid = tid then TagRec.mk x.tid x.name (x.usageCount + 1) else x)

/-- JS `tagName.toLowerCase()` (routes/users.js line 310), modelled
character by character. -/
def lowerName (s : String) : String :=
  String.mk (s.data.map Char.toLower)

/-- Tag-processing loop of the create-thread handler (routes/users.js
lines 306-319): for each submitted name in order, look the lowercased
name up; create the tag (`usageCount` 0) when absent; then increment its
usage counter and push its id. `fresh` supplies ids for created tags.
Returns the tag collection, the pushed `tagIds` in loop order, and the
next fresh id. -/
def processTags : List String → List TagRec → Nat → List TagRec × List Nat × Nat
  | [], tags, fresh => (tags, [], fresh)
  | n :: rest, tags, fresh =>
    let low := lowerName n
    match tags.find? (fun x => x.name = low) with
    | some tg =>
      let r := processTags rest (incTagById tg.tid tags) fresh
      (r.1, tg.tid :: r.2.1, r.2.2)
    | none =>
      let r := processTags rest (incTagById fresh (tags ++ [TagRec.mk fresh low 0])) (fresh + 1)
      (r.1, fresh :: r.2.1, r.2.2)

/-- Tag collection together with every thread's `tags` array of tag ids,
the state the merge route touches. -/
structure TagStore where
  tags : List TagRec
  threads : List (List Nat)

/-- Replacement of the first occurrence of `a` by `b` in one thread's
`tags` array: the MongoDB positional operator `$set {"tags.$": ...}`
rewrites only the first array element matched by the query. -/
def setFirstOcc (a b : Nat) : List Nat → List Nat
  | [] => []
  | x :: xs => if x = a then b :: xs else x :: setFirstOcc a b xs

/-- Error answers of `POST /:tagId/merge` (routes/tags.js lines 210-254):
400 missing `targetTagId`, 404 one or both tags not found, 400 merging a
tag with itself. -/
inductive MergeErr where
  | missingTarget
  | notFound
  | selfMerge
deriving DecidableEq, Repr

/-- `POST /:tagId/merge` handler (routes/tags.js lines 210-254): look both
tags up, reject a self merge, repoint threads that use the source tag via
`updateMany({tags: source}, {$set: {"tags.$": target}})`, add the source's
`usageCount` to the target's, and delete the source tag. -/
def mergeTags (st : TagStore) (sourceId : Nat) (targetId? : Option Nat) :
    Except MergeErr TagStore :=
  match targetId? with
  | none => Except.error MergeErr.missingTarget
  | some targetId =>
    match st.tags.find? (fun x => x.tid = sourceId),
          st.tags.find? (fun x => x.tid = targetId) with
    | some src, some _ =>
      if sourceId = targetId then Except.error MergeErr.selfMerge
      else
        let threads2 := st.threads.map
          (fun ts => if sourceId ∈ ts then setFirstOcc sourceId targetId ts else ts)
        let tags2 := st.tags.map (fun x =>
          if x.tid = targetId then TagRec.mk x.tid x.name (x.usageCount + src.usageCount) else x)
        Except.ok (TagStore.mk (tags2.filter (fun x => x.tid ≠ sourceId)) threads2)
    | _, _ => Except.error MergeErr.notFound

/-- Sample reply C of the spec scenario: a leaf with one upvote. -/
def sampleC : Reply := Reply.mk 3 12 "c" (some 2) [⟨1, VoteType.upvote⟩] false []

/-- Sample reply B of the spec scenario: one downvote, child C. -/
def sampleB : Reply := Reply.mk 2 11 "b" (some 1) [⟨2, VoteType.downvote⟩] false [sampleC]

/-- Sample reply A of the spec scenario: no votes, child B. -/
def sampleA : Reply := Reply.mk 1 10 "a" none [] false [sampleB]

theorem voteScore_nil : voteScore [] = 0 := rfl

theorem voteScore_cons (v : Vote) (l : List Vote) :
    voteScore (v :: l) = (if v.type = VoteType.upvote then 1 else -1) + voteScore l := by
  cases hv : v.type <;>
    simp [voteScore, countVotes, List.filter_cons, hv] <;> omega

theorem voteScore_append (l1 l2 : List Vote) :
    voteScore (l1 ++ l2) = voteScore l1 + voteScore l2 := by
  induction l1 with
  | nil => simp [voteScore_nil]
  | cons v rest ih => simp [voteScore_cons, ih]; ring

theorem castVoteList_score (voter : Nat) (t : VoteType) (l : List Vote) :
    voteScore (castVoteList voter t l).1 = voteScore l + (castVoteList voter t l).2 := by
  induction l with
  | nil => cases t <;> simp [castVoteList, voteScore, countVotes]
  | cons v rest ih =>
    by_cases hu : v.user = voter
    · by_cases ht : v.type = t
      · simp [castVoteList, hu, ht, voteScore_cons]
        cases t <;> simp [ht]
      · simp [castVoteList, hu, ht, voteScore_cons]
        cases t2 : v.type <;> cases t <;> simp [t2, ht] at * <;> ring
    · simp [castVoteList, hu, voteScore_cons, ih]
      ring

theorem castVoteList_not_voted (voter : Nat) (t : VoteType) (l : List Vote)
    (h : ∀ v ∈ l, v.user ≠ voter) :
    castVoteList voter t l = (l ++ [⟨voter, t⟩], if t = VoteType.upvote then 1 else -1) := by
  induction l with
  | nil => simp [castVoteList]
  | cons v rest ih =>
    have hv : ¬ v.user = voter := h v (List.mem_cons_self v rest)
    simp [castVoteList, hv, ih (fun w hw => h w (List.mem_cons_of_mem v hw))]

theorem castVoteList_found_same (voter : Nat) (t : VoteType) (pre post : List Vote)
    (h : ∀ v ∈ pre, v.user ≠ voter) :
    castVoteList voter t (pre ++ ⟨voter, t⟩ :: post) =
      (pre ++ post, if t = VoteType.upvote then -1 else 1) := by
  induction pre with
  | nil => simp [castVoteList]
  | cons v rest ih =>
    have hv : ¬ v.user = voter := h v (List.mem_cons_self v rest)
    simp [castVoteList, hv, ih (fun w hw => h w (List.mem_cons_of_mem v hw))]

theorem castVoteList_found_other (voter : Nat) (t t2 : VoteType) (pre post : List Vote)
    (h : ∀ v ∈ pre, v.user ≠ voter) (ht : t2 ≠ t) :
    castVoteList voter t (pre ++ ⟨voter, t2⟩ :: post) =
      (pre ++ ⟨voter, t⟩ :: post, if t = VoteType.upvote then 2 else -2) := by
  induction pre with
  | nil => simp [castVoteList, ht]
  | cons v rest ih =>
    have hv : ¬ v.user = voter := h v (List.mem_cons_self v rest)
    simp [castVoteList, hv, ih (fun w hw => h w (List.mem_cons_of_mem v hw))]

theorem castVoteList_users (voter : Nat) (t : VoteType) (l : List Vote) (w : Vote)
    (h : w ∈ (castVoteList voter t l).1) :
    w.user ∈ l.map Vote.user ∨ w.user = voter := by
  induction l with
  | nil =>
    simp [castVoteList] at h
    right
    rw [h]
  | cons v rest ih =>
    by_cases hu : v.user = voter
    · by_cases ht : v.type = t
      · simp only [castVoteList, if_pos hu, if_pos ht] at h
        left
        exact List.mem_map_of_mem Vote.user (List.mem_cons_of_mem v h)
      · simp only [castVoteList, if_pos hu, if_neg ht] at h
        rcases List.mem_cons.mp h with h2 | h2
        · right; rw [h2]
        · left; exact List.mem_map_of_mem Vote.user (List.mem_cons_of_mem v h2)
    · simp only [castVoteList, if_neg hu] at h
      rcases List.mem_cons.mp h with h2 | h2
      · left
        rw [h2]
        exact List.mem_map_of_mem Vote.user (List.mem_cons_self v rest)
      · rcases ih h2 with h3 | h3
        · left
          rw [List.map_cons]
          exact List.mem_cons_of_mem v.user h3
        · right; exact h3

theorem castVoteList_nodup (voter : Nat) (t : VoteType) (l : List Vote)
    (h : (l.map Vote.user).Nodup) :
    ((castVoteList voter t l).1.map Vote.user).Nodup := by
  induction l with
  | nil => simp [castVoteList]
  | cons v rest ih =>
    rw [List.map_cons, List.nodup_cons] at h
    by_cases hu : v.user = voter
    · by_cases ht : v.type = t
      · simpa only [castVoteList, if_pos hu, if_pos ht] using h.2
      · simp only [castVoteList, if_pos hu, if_neg ht, List.map_cons, List.nodup_cons]
        refine ⟨fun hmem => h.1 ?_, h.2⟩
        rw [hu]
        exact hmem
    · simp only [castVoteList, if_neg hu, List.map_cons, List.nodup_cons]
      refine ⟨fun hmem => ?_, ih h.2⟩
      rw [List.mem_map] at hmem
      obtain ⟨w, hw, hwu⟩ := hmem
      rcases castVoteList_users voter t rest w hw with h2 | h2
      · exact h.1 (hwu ▸ h2)
      · exact hu (by rw [← hwu, h2])

theorem exists_first_vote (voter : Nat) (l : List Vote)
    (h : voter ∈ l.map Vote.user) :
    ∃ pre t2 post, l = pre ++ ⟨voter, t2⟩ :: post ∧ ∀ v ∈ pre, v.user ≠ voter := by
  induction l with
  | nil => simp at h
  | cons v rest ih =>
    by_cases hu : v.user = voter
    · refine ⟨[], v.type, rest, ?_, by simp⟩
      cases v with
      | mk u ty =>
        simp only [Vote.user] at hu
        rw [hu]
        rfl
    · have hmem : voter ∈ rest.map Vote.user := by
        rw [List.map_cons] at h
        rcases List.mem_cons.mp h with h2 | h2
        · exact absurd h2.symm hu
        · exact h2
      obtain ⟨pre, t2, post, heq, hpre⟩ := ih hmem
      refine ⟨v :: pre, t2, post, by rw [heq]; rfl, ?_⟩
      intro w hw
      rcases List.mem_cons.mp hw with h2 | h2
      · rw [h2]; exact hu
      · exact hpre w h2

theorem adjustRep_nonneg (rep d : Int) : 0 ≤ adjustRep rep d :=
  le_max_left 0 (rep + d)

theorem applyCasts_rep_nonneg (casts : List (Nat × VoteType)) :
    ∀ (l : List Vote) (rep : Int), 0 ≤ rep → 0 ≤ (applyCasts casts (l, rep)).2 := by
  induction casts with
  | nil => intro l rep h; exact h
  | cons c rest ih =>
    intro l rep _
    obtain ⟨voter, t⟩ := c
    exact ih _ _ (adjustRep_nonneg rep (castVoteList voter t l).2)

theorem applyCasts_noclamp (casts : List (Nat × VoteType)) :
    ∀ (l : List Vote) (rep : Int),
    (∀ k, k ≤ casts.length →
      0 ≤ rep - voteScore l + voteScore (applyCasts (List.take k casts) (l, rep)).1) →
    (applyCasts casts (l, rep)).2 =
      rep - voteScore l + voteScore (applyCasts casts (l, rep)).1 := by
  induction casts with
  | nil =>
    intro l rep _
    simp [applyCasts]
  | cons c rest ih =>
    intro l rep h
    obtain ⟨voter, t⟩ := c
    have hδ := castVoteList_score voter t l
    have h1 := h 1 (by simp)
    rw [List.take_succ_cons, List.take_zero] at h1
    simp only [applyCasts] at h1
    have hadj : adjustRep rep (castVoteList voter t l).2 =
        rep + (castVoteList voter t l).2 := by
      have hge : 0 ≤ rep + (castVoteList voter t l).2 := by omega
      unfold adjustRep
      exact max_eq_right hge
    have hrw : ∀ k, applyCasts (List.take k rest)
        ((castVoteList voter t l).1, rep + (castVoteList voter t l).2) =
        applyCasts (List.take (k + 1) ((voter, t) :: rest)) (l, rep) := by
      intro k
      rw [List.take_succ_cons]
      simp only [applyCasts, hadj]
    have hmain := ih (castVoteList voter t l).1 (rep + (castVoteList voter t l).2)
      (by
        intro k hk
        rw [hrw k]
        have := h (k + 1) (by simpa using Nat.succ_le_succ hk)
        omega)
    simp only [applyCasts, hadj]
    rw [hmain]
    have hfin : applyCasts rest ((castVoteList voter t l).1, rep + (castVoteList voter t l).2) =
        applyCasts ((voter, t) :: rest) (l, rep) := by
      simp only [applyCasts, hadj]
    rw [hfin]
    omega

theorem remove_of_find_none (rid uid : Nat) (role : String) (f : List Reply)
    (h : findReplyForest rid f = none) :
    removeReplyForest rid uid role f = TreeEdit.notFound := by
  induction f using findReplyForest.induct rid with
  | case1 => rw [removeReplyForest]
  | case2 a c p vs e ch rs =>
    rw [findReplyForest, if_pos rfl] at h
    simp at h
  | case3 i a c p vs e ch rs hi x hch ih =>
    rw [findReplyForest, if_neg hi, hch] at h
    simp at h
  | case4 i a c p vs e ch rs hi hch ih1 ih2 =>
    rw [findReplyForest, if_neg hi, hch] at h
    rw [removeReplyForest, if_neg hi, ih1 hch, ih2 h]

theorem remove_of_find (rid uid : Nat) (role : String) (f : List Reply) :
    ∀ sub : Reply, findReplyForest rid f = some sub →
    (uid = sub.author ∨ role = "admin") →
    ∃ f2, removeReplyForest rid uid role f = TreeEdit.ok f2 ∧
      countReplies f2 + countReplies [sub] = countReplies f ∧
      (calculateReplyStats f2).1 + (calculateReplyStats [sub]).1 =
        (calculateReplyStats f).1 ∧
      (calculateReplyStats f2).2 + (calculateReplyStats [sub]).2 =
        (calculateReplyStats f).2 := by
  induction f using findReplyForest.induct rid with
  | case1 =>
    intro sub h
    simp [findReplyForest] at h
  | case2 a c p vs e ch rs =>
    intro sub h hauth
    rw [findReplyForest, if_pos rfl] at h
    simp at h
    subst h
    refine ⟨rs, ?_, ?_⟩
    · rw [removeReplyForest, if_pos rfl, if_pos]
      simpa [Reply.author] using hauth
    · simp [countReplies, calculateReplyStats]
      omega
  | case3 i a c p vs e ch rs hi x hch ih =>
    intro sub h hauth
    rw [findReplyForest, if_neg hi, hch] at h
    simp at h
    subst h
    obtain ⟨ch2, hrm, h1, h2, h3⟩ := ih x hch hauth
    refine ⟨Reply.mk i a c p vs e ch2 :: rs, ?_, ?_, ?_, ?_⟩
    · rw [removeReplyForest, if_neg hi, hrm]
    · simp [countReplies] at h1 ⊢
      omega
    · simp [calculateReplyStats] at h2 ⊢
      omega
    · simp [calculateReplyStats] at h3 ⊢
      omega
  | case4 i a c p vs e ch rs hi hch ih1 ih2 =>
    intro sub h hauth
    rw [findReplyForest, if_neg hi, hch] at h
    obtain ⟨rs2, hrm, h1, h2, h3⟩ := ih2 sub h hauth
    refine ⟨Reply.mk i a c p vs e ch :: rs2, ?_, ?_, ?_, ?_⟩
    · rw [removeReplyForest, if_neg hi, remove_of_find_none rid uid role ch hch, hrm]
    · simp [countReplies] at h1 ⊢
      omega
    · simp [calculateReplyStats] at h2 ⊢
      omega
    · simp [calculateReplyStats] at h3 ⊢
      omega

theorem vote_of_find_none (rid voter : Nat) (t : VoteType) (f : List Reply)
    (h : findReplyForest rid f = none) :
    findAndVoteReply rid voter t f = none := by
  induction f using findReplyForest.induct rid with
  | case1 => rw [findAndVoteReply]
  | case2 a c p vs e ch rs =>
    rw [findReplyForest, if_pos rfl] at h
    simp at h
  | case3 i a c p vs e ch rs hi x hch ih =>
    rw [findReplyForest, if_neg hi, hch] at h
    simp at h
  | case4 i a c p vs e ch rs hi hch ih1 ih2 =>
    rw [findReplyForest, if_neg hi, hch] at h
    rw [findAndVoteReply, if_neg hi, ih1 hch, ih2 h]

theorem vote_of_find (rid voter : Nat) (t : VoteType) (f : List Reply) :
    ∀ sub : Reply, findReplyForest rid f = some sub →
    ∃ f2, findAndVoteReply rid voter t f =
      some (f2, (castVoteList voter t sub.votes).2, sub.author,
        (castVoteList voter t sub.votes).1) := by
  induction f using findReplyForest.induct rid with
  | case1 =>
    intro sub h
    simp [findReplyForest] at h
  | case2 a c p vs e ch rs =>
    intro sub h
    rw [findReplyForest, if_pos rfl] at h
    simp at h
    subst h
    refine ⟨Reply.mk rid a c p (castVoteList voter t vs).1 e ch :: rs, ?_⟩
    rw [findAndVoteReply, if_pos rfl]
    simp [Reply.votes, Reply.author]
  | case3 i a c p vs e ch rs hi x hch ih =>
    intro sub h
    rw [findReplyForest, if_neg hi, hch] at h
    simp at h
    subst h
    obtain ⟨ch2, hvt⟩ := ih x hch
    refine ⟨Reply.mk i a c p vs e ch2 :: rs, ?_⟩
    rw [findAndVoteReply, if_neg hi, hvt]
  | case4 i a c p vs e ch rs hi hch ih1 ih2 =>
    intro sub h
    rw [findReplyForest, if_neg hi, hch] at h
    obtain ⟨rs2, hvt⟩ := ih2 sub h
    refine ⟨Reply.mk i a c p vs e ch :: rs2, ?_⟩
    rw [findAndVoteReply, if_neg hi, vote_of_find_none rid voter t ch hch, hvt]

theorem update_of_find_none (rid uid : Nat) (role content : String) (f : List Reply)
    (h : findReplyForest rid f = none) :
    findAndUpdateReply rid uid role content f = TreeEdit.notFound := by
  induction f using findReplyForest.induct rid with
  | case1 => rw [findAndUpdateReply]
  | case2 a c p vs e ch rs =>
    rw [findReplyForest, if_pos rfl] at h
    simp at h
  | case3 i a c p vs e ch rs hi x hch ih =>
    rw [findReplyForest, if_neg hi, hch] at h
    simp at h
  | case4 i a c p vs e ch rs hi hch ih1 ih2 =>
    rw [findReplyForest, if_neg hi, hch] at h
    rw [findAndUpdateReply, if_neg hi, ih1 hch, ih2 h]

theorem update_of_find (rid uid : Nat) (role content : String) (f : List Reply) :
    ∀ sub : Reply, findReplyForest rid f = some sub →
    (uid = sub.author ∨ role = "admin") →
    ∃ f2, findAndUpdateReply rid uid role content f = TreeEdit.ok f2 := by
  induction f using findReplyForest.induct rid with
  | case1 =>
    intro sub h
    simp [findReplyForest] at h
  | case2 a c p vs e ch rs =>
    intro sub h hauth
    rw [findReplyForest, if_pos rfl] at h
    simp at h
    subst h
    refine ⟨Reply.mk rid a content p vs true ch :: rs, ?_⟩
    rw [findAndUpdateReply, if_pos rfl, if_pos]
    simpa [Reply.author] using hauth
  | case3 i a c p vs e ch rs hi x hch ih =>
    intro sub h hauth
    rw [findReplyForest, if_neg hi, hch] at h
    simp at h
    subst h
    obtain ⟨ch2, hup⟩ := ih x hch hauth
    refine ⟨Reply.mk i a c p vs e ch2 :: rs, ?_⟩
    rw [findAndUpdateReply, if_neg hi, hup]
  | case4 i a c p vs e ch rs hi hch ih1 ih2 =>
    intro sub h hauth
    rw [findReplyForest, if_neg hi, hch] at h
    obtain ⟨rs2, hup⟩ := ih2 sub h hauth
    refine ⟨Reply.mk i a c p vs e ch :: rs2, ?_⟩
    rw [findAndUpdateReply, if_neg hi, update_of_find_none rid uid role content ch hch, hup]

theorem add_of_find_none (pid : Nat) (newR : Reply) (f : List Reply)
    (h : findReplyForest pid f = none) :
    findAndAddReply pid newR f = none := by
  induction f using findReplyForest.induct pid with
  | case1 => rw [findAndAddReply]
  | case2 a c p vs e ch rs =>
    rw [findReplyForest, if_pos rfl] at h
    simp at h
  | case3 i a c p vs e ch rs hi x hch ih =>
    rw [findReplyForest, if_neg hi, hch] at h
    simp at h
  | case4 i a c p vs e ch rs hi hch ih1 ih2 =>
    rw [findReplyForest, if_neg hi, hch] at h
    rw [findAndAddReply, if_neg hi, ih1 hch, ih2 h]

theorem vote_preserves_nodup (rid voter : Nat) (t : VoteType) (f : List Reply) :
    ∀ (f2 : List Reply) (d : Int) (au : Nat) (nv : List Vote),
    forestNodup f → findAndVoteReply rid voter t f = some (f2, d, au, nv) →
    forestNodup f2 := by
  induction f using findReplyForest.induct rid with
  | case1 =>
    intro f2 d au nv _ h
    simp [findAndVoteReply] at h
  | case2 a c p vs e ch rs =>
    intro f2 d au nv hnd h
    rw [forestNodup] at hnd
    obtain ⟨h1, h2, h3⟩ := hnd
    rw [findAndVoteReply, if_pos rfl] at h
    simp only [Option.some.injEq, Prod.mk.injEq] at h
    obtain ⟨hf2, _, _, _⟩ := h
    rw [← hf2, forestNodup]
    exact ⟨castVoteList_nodup voter t vs h1, h2, h3⟩
  | case3 i a c p vs e ch rs hi x hch ih =>
    intro f2 d au nv hnd h
    rw [forestNodup] at hnd
    obtain ⟨h1, h2, h3⟩ := hnd
    rw [findAndVoteReply, if_neg hi] at h
    obtain ⟨ch2, hvt⟩ := vote_of_find rid voter t ch x hch
    rw [hvt] at h
    simp only [Option.some.injEq, Prod.mk.injEq] at h
    obtain ⟨hf2, _, _, _⟩ := h
    rw [← hf2, forestNodup]
    exact ⟨h1, ih ch2 _ _ _ h2 hvt, h3⟩
  | case4 i a c p vs e ch rs hi hch ih1 ih2 =>
    intro f2 d au nv hnd h
    rw [forestNodup] at hnd
    obtain ⟨h1, h2, h3⟩ := hnd
    rw [findAndVoteReply, if_neg hi, vote_of_find_none rid voter t ch hch] at h
    cases hvr : findAndVoteReply rid voter t rs with
    | some r =>
      obtain ⟨rs2, d2, au2, nv2⟩ := r
      rw [hvr] at h
      simp only [Option.some.injEq, Prod.mk.injEq] at h
      obtain ⟨hf2, _, _, _⟩ := h
      rw [← hf2, forestNodup]
      exact ⟨h1, h2, ih2 rs2 d2 au2 nv2 h3 hvr⟩
    | none =>
      rw [hvr] at h
      simp at h

theorem setFirstOcc_not_mem (a b : Nat) (ts : List Nat) (hne : a ≠ b)
    (hcount : List.count a ts ≤ 1) : a ∉ setFirstOcc a b ts := by
  induction ts with
  | nil => simp [setFirstOcc]
  | cons x xs ih =>
    by_cases hx : x = a
    · subst hx
      rw [setFirstOcc, if_pos rfl]
      have hxs : List.count x xs = 0 := by
        rw [List.count_cons_self] at hcount
        omega
      have hnm : x ∉ xs := List.count_eq_zero.mp hxs
      intro hmem
      rcases List.mem_cons.mp hmem with h1 | h1
      · exact hne h1
      · exact hnm h1
    · rw [setFirstOcc, if_neg hx]
      have hc : List.count a xs ≤ 1 := by
        rw [List.count_cons] at hcount
        omega
      intro hmem
      rcases List.mem_cons.mp hmem with h1 | h1
      · exact hx h1.symm
      · exact ih hc h1

theorem merged_find_target (tags : List TagRec) (srcId targetId add : Nat) (tgt : TagRec)
    (h : tags.find? (fun x => x.tid = targetId) = some tgt) (hne : targetId ≠ srcId) :
    ((tags.map (fun x =>
        if x.tid = targetId then TagRec.mk x.tid x.name (x.usageCount + add) else x)).filter
      (fun x => x.tid ≠ srcId)).find? (fun x => x.tid = targetId) =
      some (TagRec.mk tgt.tid tgt.name (tgt.usageCount + add)) := by
  induction tags with
  | nil => simp at h
  | cons x xs ih =>
    by_cases hx : x.tid = targetId
    · rw [List.find?_cons_of_pos] at h
      · simp at h
        subst h
        rw [List.map_cons, if_pos hx]
        rw [List.filter_cons_of_pos]
        · rw [List.find?_cons_of_pos]
          simp [hx]
        · simp [TagRec.tid, hx, hne]
      · simp [hx]
    · rw [List.find?_cons_of_neg] at h
      · rw [List.map_cons, if_neg hx]
        by_cases hsrc : x.tid = srcId
        · rw [List.filter_cons_of_neg]
          · exact ih h
          · simp [hsrc]
        · rw [List.filter_cons_of_pos]
          · rw [List.find?_cons_of_neg]
            · exact ih h
            · simp [hx]
          · simp [hsrc]
      · simp [hx]

theorem merged_find_source (tags : List TagRec) (srcId targetId add : Nat) :
    ((tags.map (fun x =>
        if x.tid = targetId then TagRec.mk x.tid x.name (x.usageCount + add) else x)).filter
      (fun x => x.tid ≠ srcId)).find? (fun x => x.tid = srcId) = none := by
  rw [List.find?_eq_none]
  intro x hx
  have := List.of_mem_filter hx
  simpa using this

theorem voteOnThread_some (th : Thread) (voter : Nat) (s : String) (t : VoteType)
    (hs : parseVoteType s = some t) :
    voteOnThread (some th) voter s =
      Except.ok (Thread.mk th.author (castVoteList voter t th.votes).1 th.replies th.isLocked,
        VoteOutcome.mk (castVoteList voter t th.votes).1 (castVoteList voter t th.votes).2
          (voteScore (castVoteList voter t th.votes).1)
          (((castVoteList voter t th.votes).1.find? (fun v => v.user = voter)).map Vote.type)
          th.author) := by
  unfold parseVoteType at hs
  by_cases h1 : s = "upvote"
  · rw [if_pos h1] at hs
    simp at hs
    subst h1
    subst hs
    simp [voteOnThread]
  · rw [if_neg h1] at hs
    by_cases h2 : s = "downvote"
    · rw [if_pos h2] at hs
      simp at hs
      subst h2
      subst hs
      simp [voteOnThread]
    · rw [if_neg h2] at hs
      simp at hs

theorem voteOnThread_missing (voter : Nat) (s : String) (t : VoteType)
    (hs : parseVoteType s = some t) :
    voteOnThread none voter s = Except.error VoteErr.notFound := by
  unfold parseVoteType at hs
  by_cases h1 : s = "upvote"
  · subst h1
    simp [voteOnThread]
  · rw [if_neg h1] at hs
    by_cases h2 : s = "downvote"
    · subst h2
      simp [voteOnThread]
    · rw [if_neg h2] at hs
      simp at hs

theorem voteOnThread_invalid (th? : Option Thread) (voter : Nat) (s : String)
    (hs : parseVoteType s = none) :
    voteOnThread th? voter s = Except.error VoteErr.invalidVote := by
  unfold parseVoteType at hs
  by_cases h1 : s = "upvote"
  · rw [if_pos h1] at hs
    simp at hs
  · rw [if_neg h1] at hs
    by_cases h2 : s = "downvote"
    · rw [if_pos h2] at hs
      simp at hs
    · rw [voteOnThread.eq_def, if_neg (by simp [h1, h2])]

theorem voteOnReply_ok (th : Thread) (voter rid : Nat) (s : String) (t : VoteType)
    (f : List Reply) (d : Int) (au : Nat) (nv : List Vote)
    (hs : parseVoteType s = some t)
    (hf : findAndVoteReply rid voter t th.replies = some (f, d, au, nv)) :
    voteOnReply (some th) voter rid s =
      Except.ok (Thread.mk th.author th.votes f th.isLocked,
        VoteOutcome.mk nv d (voteScore nv)
          ((nv.find? (fun v => v.user = voter)).map Vote.type) au) := by
  unfold parseVoteType at hs
  by_cases h1 : s = "upvote"
  · rw [if_pos h1] at hs
    simp at hs
    subst h1
    subst hs
    simp [voteOnReply, hf]
  · rw [if_neg h1] at hs
    by_cases h2 : s = "downvote"
    · rw [if_pos h2] at hs
      simp at hs
      subst h2
      subst hs
      simp [voteOnReply, hf]
    · rw [if_neg h2] at hs
      simp at hs

/-- C1: castVote on a thread with a recognized type follows the three-case
rule (append with delta ±1 when the voter has no vote; toggle-off with
delta ∓1 on a same-type vote; in-place flip with delta ±2 on an
opposite-type vote), the returned score is count(upvote) - count(downvote)
over the mutated vote list, the operation fails with NotFound when the
thread is missing and with InvalidVote when the type is unrecognized. -/
theorem claim1_thread_vote_cases (th : Thread) (voter : Nat) (s : String) (t : VoteType)
    (hs : parseVoteType s = some t) :
    voteOnThread none voter s = Except.error VoteErr.notFound ∧
    (∀ (th2 : Option Thread) (s2 : String), parseVoteType s2 = none →
      voteOnThread th2 voter s2 = Except.error VoteErr.invalidVote) ∧
    (∃ th2 out, voteOnThread (some th) voter s = Except.ok (th2, out) ∧
      th2.votes = out.votes ∧
      out.score = (countVotes VoteType.upvote out.votes : Int) -
        (countVotes VoteType.downvote out.votes : Int) ∧
      ((∀ v ∈ th.votes, v.user ≠ voter) →
        out.votes = th.votes ++ [⟨voter, t⟩] ∧
        out.voteChange = (if t = VoteType.upvote then 1 else -1)) ∧
      (∀ pre t2 post, th.votes = pre ++ ⟨voter, t2⟩ :: post →
        (∀ v ∈ pre, v.user ≠ voter) →
        ((t2 = t → out.votes = pre ++ post ∧
          out.voteChange = (if t = VoteType.upvote then -1 else 1)) ∧
         (t2 ≠ t → out.votes = pre ++ ⟨voter, t⟩ :: post ∧
          out.voteChange = (if t = VoteType.upvote then 2 else -2))))) := by
  refine ⟨voteOnThread_missing voter s t hs,
    fun th2 s2 h2 => voteOnThread_invalid th2 voter s2 h2, ?_⟩
  refine ⟨_, _, voteOnThread_some th voter s t hs, rfl, rfl, ?_, ?_⟩
  · intro h
    rw [castVoteList_not_voted voter t th.votes h]
    exact ⟨rfl, rfl⟩
  · intro pre t2 post heq hpre
    constructor
    · intro ht2
      subst ht2
      rw [heq, castVoteList_found_same voter t2 pre post hpre]
      exact ⟨rfl, rfl⟩
    · intro ht2
      rw [heq, castVoteList_found_other voter t t2 pre post hpre ht2]
      exact ⟨rfl, rfl⟩

theorem claim1_witness :
    parseVoteType "upvote" = some VoteType.upvote ∧
    (voteOnThread none 1 "upvote" = Except.error VoteErr.notFound ∧
     (∀ (th2 : Option Thread) (s2 : String), parseVoteType s2 = none →
       voteOnThread th2 1 s2 = Except.error VoteErr.invalidVote) ∧
     (∃ th2 out,
       voteOnThread (some (Thread.mk 10 [] [] false)) 1 "upvote" = Except.ok (th2, out) ∧
       th2.votes = out.votes ∧
       out.score = (countVotes VoteType.upvote out.votes : Int) -
         (countVotes VoteType.downvote out.votes : Int) ∧
       ((∀ v ∈ (Thread.mk 10 [] [] false).votes, v.user ≠ 1) →
         out.votes = (Thread.mk 10 [] [] false).votes ++ [⟨1, VoteType.upvote⟩] ∧
         out.voteChange = (if VoteType.upvote = VoteType.upvote then 1 else -1)) ∧
       (∀ pre t2 post, (Thread.mk 10 [] [] false).votes = pre ++ ⟨1, t2⟩ :: post →
         (∀ v ∈ pre, v.user ≠ 1) →
         ((t2 = VoteType.upvote → out.votes = pre ++ post ∧
           out.voteChange = (if VoteType.upvote = VoteType.upvote then -1 else 1)) ∧
          (t2 ≠ VoteType.upvote →
           out.votes = pre ++ ⟨1, VoteType.upvote⟩ :: post ∧
           out.voteChange = (if VoteType.upvote = VoteType.upvote then 2 else -2)))))) :=
  ⟨by decide,
   claim1_thread_vote_cases (Thread.mk 10 [] [] false) 1 "upvote" VoteType.upvote (by decide)⟩

/-- C2 counterexample: base reputation 0; voter 1 casts a downvote (the
reputation clamps at 0), then voter 2 casts an upvote. The final ledger
holds one upvote and one downvote from distinct voters (N = M = 1), so the
claimed formula gives max(0, 0 + 1 - 1) = 0, but the code leaves the
author's reputation at 1. -/
theorem claim2_counterexample :
    (applyCasts [(1, VoteType.downvote), (2, VoteType.upvote)] ([], 0)).2 ≠
      max 0 (0 + (countVotes VoteType.upvote
          (applyCasts [(1, VoteType.downvote), (2, VoteType.upvote)] ([], 0)).1 : Int) -
        (countVotes VoteType.downvote
          (applyCasts [(1, VoteType.downvote), (2, VoteType.upvote)] ([], 0)).1 : Int)) := by
  decide

/-- C2 (amended): starting from reputation `base` and an empty vote ledger,
after any sequence of casts the author's reputation equals
max(0, base + N - M) over the final ledger, provided the pre-clamp value
base + (current score) stays nonnegative after every prefix of the
sequence (when an intermediate step clamps at 0, the final reputation can
exceed this formula); moreover the reputation is never negative,
whatever the sequence. -/
theorem claim2_reputation (base : Int) (casts : List (Nat × VoteType))
    (hnoclamp : ∀ k, k ≤ casts.length →
      0 ≤ base + voteScore (applyCasts (List.take k casts) ([], base)).1) :
    (applyCasts casts ([], base)).2 =
      max 0 (base + (countVotes VoteType.upvote (applyCasts casts ([], base)).1 : Int) -
        (countVotes VoteType.downvote (applyCasts casts ([], base)).1 : Int)) ∧
    (∀ (casts2 : List (Nat × VoteType)) (rep0 : Int), 0 ≤ rep0 →
      0 ≤ (applyCasts casts2 ([], rep0)).2) := by
  constructor
  · have hmain := applyCasts_noclamp casts [] base (by
      intro k hk
      have := hnoclamp k hk
      simpa [voteScore_nil] using this)
    have hfin := hnoclamp casts.length (le_refl _)
    rw [List.take_length] at hfin
    rw [voteScore_nil] at hmain
    have hscore : voteScore (applyCasts casts ([], base)).1 =
        (countVotes VoteType.upvote (applyCasts casts ([], base)).1 : Int) -
        (countVotes VoteType.downvote (applyCasts casts ([], base)).1 : Int) := rfl
    rw [hmain]
    rw [hscore] at hfin ⊢
    omega
  · intro casts2 rep0 h0
    exact applyCasts_rep_nonneg casts2 [] rep0 h0

theorem claim2_witness :
    (∀ k, k ≤ ([(1, VoteType.upvote), (2, VoteType.downvote)] : List (Nat × VoteType)).length →
      0 ≤ 10 + voteScore (applyCasts
        (List.take k [(1, VoteType.upvote), (2, VoteType.downvote)]) ([], 10)).1) ∧
    ((applyCasts [(1, VoteType.upvote), (2, VoteType.downvote)] ([], 10)).2 =
      max 0 (10 + (countVotes VoteType.upvote
          (applyCasts [(1, VoteType.upvote), (2, VoteType.downvote)] ([], 10)).1 : Int) -
        (countVotes VoteType.downvote
          (applyCasts [(1, VoteType.upvote), (2, VoteType.downvote)] ([], 10)).1 : Int)) ∧
     (∀ (casts2 : List (Nat × VoteType)) (rep0 : Int), 0 ≤ rep0 →
       0 ≤ (applyCasts casts2 ([], rep0)).2)) :=
  ⟨by
    intro k hk
    have hk2 : k ≤ 2 := by simpa using hk
    interval_cases k <;> decide,
   claim2_reputation 10 [(1, VoteType.upvote), (2, VoteType.downvote)]
     (by
      intro k hk
      have hk2 : k ≤ 2 := by simpa using hk
      interval_cases k <;> decide)⟩

/-- C3: when the reply with id `rid` is present in the forest (located at
the first depth-first match, `sub`) and the requester may delete it,
`findAndRemoveReply` succeeds and removes the node together with its whole
embedded subtree: the node count drops by the subtree's size (so no child
is re-parented) and `calculateReplyStats` over the remaining forest
excludes exactly the deleted subtree's upvotes and downvotes. -/
theorem claim3_delete_subtree (f : List Reply) (rid uid : Nat) (role : String) (sub : Reply)
    (hf : findReplyForest rid f = some sub)
    (hauth : uid = sub.author ∨ role = "admin") :
    ∃ f2, removeReplyForest rid uid role f = TreeEdit.ok f2 ∧
      countReplies f2 + countReplies [sub] = countReplies f ∧
      (calculateReplyStats f2).1 + (calculateReplyStats [sub]).1 =
        (calculateReplyStats f).1 ∧
      (calculateReplyStats f2).2 + (calculateReplyStats [sub]).2 =
        (calculateReplyStats f).2 :=
  remove_of_find rid uid role f sub hf hauth

theorem claim3_witness :
    (findReplyForest 2 [sampleA] = some sampleB ∧
     ((11 : Nat) = sampleB.author ∨ ("user" : String) = "admin")) ∧
    (∃ f2, removeReplyForest 2 11 "user" [sampleA] = TreeEdit.ok f2 ∧
      countReplies f2 + countReplies [sampleB] = countReplies [sampleA] ∧
      (calculateReplyStats f2).1 + (calculateReplyStats [sampleB]).1 =
        (calculateReplyStats [sampleA]).1 ∧
      (calculateReplyStats f2).2 + (calculateReplyStats [sampleB]).2 =
        (calculateReplyStats [sampleA]).2) ∧
    removeReplyForest 2 11 "user" [sampleA] =
      TreeEdit.ok [Reply.mk 1 10 "a" none [] false []] :=
  ⟨⟨by simp [findReplyForest, sampleA, sampleB, sampleC], Or.inl rfl⟩,
   claim3_delete_subtree [sampleA] 2 11 "user" sampleB
     (by simp [findReplyForest, sampleA, sampleB, sampleC]) (Or.inl rfl),
   by simp [removeReplyForest, sampleA, sampleB, sampleC]⟩

/-- C4: inserting a reply under a non-null `parentReplyId` that matches no
node of the (unlocked) thread's reply tree fails with NotFound:
`findAndAddReply` produces no tree at all (so the handler answers 404
without saving and every node is exactly as before). -/
theorem claim4_missing_parent (th : Thread) (uid : Nat) (content : String)
    (pid newId : Nat)
    (hlock : th.isLocked = false)
    (hmiss : findReplyForest pid th.replies = none) :
    addReply (some th) uid content (some pid) newId = Except.error ReplyErr.notFound ∧
    findAndAddReply pid (Reply.mk newId uid content (some pid) [] false [])
      th.replies = none := by
  have hadd := add_of_find_none pid
    (Reply.mk newId uid content (some pid) [] false []) th.replies hmiss
  refine ⟨?_, hadd⟩
  simp [addReply, hlock, hadd]

theorem claim4_witness :
    ((Thread.mk 10 [] [sampleA] false).isLocked = false ∧
     findReplyForest 99 (Thread.mk 10 [] [sampleA] false).replies = none) ∧
    (addReply (some (Thread.mk 10 [] [sampleA] false)) 7 "hi" (some 99) 50 =
       Except.error ReplyErr.notFound ∧
     findAndAddReply 99 (Reply.mk 50 7 "hi" (some 99) [] false [])
       (Thread.mk 10 [] [sampleA] false).replies = none) :=
  ⟨⟨rfl, by simp [findReplyForest, sampleA, sampleB, sampleC]⟩,
   claim4_missing_parent (Thread.mk 10 [] [sampleA] false) 7 "hi" 99 50 rfl
     (by simp [findReplyForest, sampleA, sampleB, sampleC])⟩

/-- C5: on a locked thread every addReply call fails with Forbidden, while
voting is not blocked by the lock (the vote handlers never read
`isLocked`): thread votes and reply votes still succeed, and an existing
reply can still be edited by its author (the edit authorization rule
ignores the lock). -/
theorem claim5_lock_semantics (th : Thread) (hlock : th.isLocked = true) :
    (∀ (uid : Nat) (content : String) (parentReplyId : Option Nat) (newId : Nat),
      addReply (some th) uid content parentReplyId newId =
        Except.error ReplyErr.forbidden) ∧
    (∀ (voter : Nat) (s : String) (t : VoteType), parseVoteType s = some t →
      ∃ th2 out, voteOnThread (some th) voter s = Except.ok (th2, out)) ∧
    (∀ (voter rid : Nat) (s : String) (t : VoteType) (sub : Reply),
      parseVoteType s = some t →
      findReplyForest rid th.replies = some sub →
      ∃ th2 out, voteOnReply (some th) voter rid s = Except.ok (th2, out)) ∧
    (∀ (uid rid : Nat) (role content : String) (sub : Reply),
      findReplyForest rid th.replies = some sub → uid = sub.author →
      ∃ th2, updateReply (some th) uid role rid content = Except.ok th2) := by
  refine ⟨?_, ?_, ?_, ?_⟩
  · intro uid content parentReplyId newId
    simp [addReply, hlock]
  · intro voter s t hs
    exact ⟨_, _, voteOnThread_some th voter s t hs⟩
  · intro voter rid s t sub hs hf
    obtain ⟨f2, hvt⟩ := vote_of_find rid voter t th.replies sub hf
    exact ⟨_, _, voteOnReply_ok th voter rid s t f2 _ _ _ hs hvt⟩
  · intro uid rid role content sub hf hauth
    obtain ⟨f2, hup⟩ := update_of_find rid uid role content th.replies sub hf
      (Or.inl hauth)
    refine ⟨Thread.mk th.author th.votes f2 th.isLocked, ?_⟩
    simp [updateReply, hup]

theorem claim5_witness :
    (Thread.mk 10 [] [sampleA] true).isLocked = true ∧
    ((∀ (uid : Nat) (content : String) (parentReplyId : Option Nat) (newId : Nat),
      addReply (some (Thread.mk 10 [] [sampleA] true)) uid content parentReplyId newId =
        Except.error ReplyErr.forbidden) ∧
     (∀ (voter : Nat) (s : String) (t : VoteType), parseVoteType s = some t →
      ∃ th2 out, voteOnThread (some (Thread.mk 10 [] [sampleA] true)) voter s =
        Except.ok (th2, out)) ∧
     (∀ (voter rid : Nat) (s : String) (t : VoteType) (sub : Reply),
      parseVoteType s = some t →
      findReplyForest rid (Thread.mk 10 [] [sampleA] true).replies = some sub →
      ∃ th2 out, voteOnReply (some (Thread.mk 10 [] [sampleA] true)) voter rid s =
        Except.ok (th2, out)) ∧
     (∀ (uid rid : Nat) (role content : String) (sub : Reply),
      findReplyForest rid (Thread.mk 10 [] [sampleA] true).replies = some sub →
      uid = sub.author →
      ∃ th2, updateReply (some (Thread.mk 10 [] [sampleA] true)) uid role rid content =
        Except.ok th2)) :=
  ⟨rfl, claim5_lock_semantics (Thread.mk 10 [] [sampleA] true) rfl⟩

/-- C6: the one-vote-per-voter invariant is preserved by every cast: on a
vote list with pairwise-distinct voters, the vote branching (add,
toggle-off or flip) returns a list with pairwise-distinct voters, and on a
reply forest whose every node satisfies the invariant, `findAndVoteReply`
returns a forest whose every node still satisfies it. -/
theorem claim6_one_vote_per_voter (voter : Nat) (t : VoteType) (l : List Vote)
    (hl : (l.map Vote.user).Nodup) (rid : Nat) (f f2 : List Reply) (d : Int)
    (au : Nat) (nv : List Vote)
    (hf : forestNodup f) (hv : findAndVoteReply rid voter t f = some (f2, d, au, nv)) :
    ((castVoteList voter t l).1.map Vote.user).Nodup ∧ forestNodup f2 :=
  ⟨castVoteList_nodup voter t l hl, vote_preserves_nodup rid voter t f f2 d au nv hf hv⟩

theorem claim6_witness :
    ((([⟨1, VoteType.upvote⟩] : List Vote).map Vote.user).Nodup ∧
     forestNodup [sampleA] ∧
     findAndVoteReply 3 2 VoteType.upvote [sampleA] =
       some ([Reply.mk 1 10 "a" none [] false
           [Reply.mk 2 11 "b" (some 1) [⟨2, VoteType.downvote⟩] false
             [Reply.mk 3 12 "c" (some 2) [⟨1, VoteType.upvote⟩, ⟨2, VoteType.upvote⟩]
               false []]]],
         1, 12, [⟨1, VoteType.upvote⟩, ⟨2, VoteType.upvote⟩])) ∧
    (((castVoteList 2 VoteType.upvote [⟨1, VoteType.upvote⟩]).1.map Vote.user).Nodup ∧
     forestNodup [Reply.mk 1 10 "a" none [] false
       [Reply.mk 2 11 "b" (some 1) [⟨2, VoteType.downvote⟩] false
         [Reply.mk 3 12 "c" (some 2) [⟨1, VoteType.upvote⟩, ⟨2, VoteType.upvote⟩]
           false []]]]) :=
  ⟨⟨by decide, by simp [forestNodup, sampleA, sampleB, sampleC],
    by simp [findAndVoteReply, sampleA, sampleB, sampleC, castVoteList]⟩,
   claim6_one_vote_per_voter 2 VoteType.upvote [⟨1, VoteType.upvote⟩] (by decide)
     3 [sampleA] _ 1 12 [⟨1, VoteType.upvote⟩, ⟨2, VoteType.upvote⟩]
     (by simp [forestNodup, sampleA, sampleB, sampleC])
     (by simp [findAndVoteReply, sampleA, sampleB, sampleC, castVoteList])⟩

/-- C7 counterexample to the claim as stated: voter 1 already holds a
downvote; casting `upvote` twice first flips (+2) then toggles off (-1),
leaving score 0, not the pre-vote score -1. -/
theorem claim7_counterexample :
    voteScore (castVoteList 1 VoteType.upvote
        (castVoteList 1 VoteType.upvote [⟨1, VoteType.downvote⟩]).1).1 ≠
      voteScore [⟨1, VoteType.downvote⟩] := by
  decide

/-- C7 (amended): on an entity satisfying the one-vote-per-voter invariant,
casting the same type twice in succession returns the score to its
pre-vote value provided the voter's existing vote (if any) is not of the
opposite type (with an opposite existing vote the first cast flips ±2 and
the second toggles off ∓1); a first cast by a fresh voter moves the score
by exactly ±1; and switching an existing vote to the opposite type moves
the score by exactly ±2, never ±1. -/
theorem claim7_toggle_flip (l : List Vote) (voter : Nat) (t : VoteType) :
    ((l.map Vote.user).Nodup → (∀ v ∈ l, v.user = voter → v.type = t) →
      voteScore (castVoteList voter t (castVoteList voter t l).1).1 = voteScore l) ∧
    ((∀ v ∈ l, v.user ≠ voter) →
      voteScore (castVoteList voter t l).1 =
        voteScore l + (if t = VoteType.upvote then 1 else -1)) ∧
    (∀ pre t2 post, l = pre ++ ⟨voter, t2⟩ :: post → (∀ v ∈ pre, v.user ≠ voter) →
      t2 ≠ t →
      voteScore (castVoteList voter t l).1 =
        voteScore l + (if t = VoteType.upvote then 2 else -2)) := by
  refine ⟨?_, ?_, ?_⟩
  · intro hnd hsame
    by_cases hmem : voter ∈ l.map Vote.user
    · obtain ⟨pre, t2, post, heq, hpre⟩ := exists_first_vote voter l hmem
      have ht2 : t2 = t := by
        have hin : (⟨voter, t2⟩ : Vote) ∈ l := by
          rw [heq]
          exact List.mem_append_right _ (List.mem_cons_self _ _)
        exact hsame _ hin rfl
      subst ht2
      have hpost : ∀ v ∈ post, v.user ≠ voter := by
        rw [heq, List.map_append, List.map_cons] at hnd
        have h2 := (List.nodup_append.mp hnd).2.1
        have h3 := (List.nodup_cons.mp h2).1
        intro v hv hvu
        have hm : v.user ∈ List.map Vote.user post := List.mem_map_of_mem Vote.user hv
        rw [hvu] at hm
        exact h3 hm
      have hnopre : ∀ v ∈ pre ++ post, v.user ≠ voter := by
        intro v hv
        rcases List.mem_append.mp hv with h | h
        · exact hpre v h
        · exact hpost v h
      rw [heq, castVoteList_found_same voter t2 pre post hpre]
      rw [castVoteList_not_voted voter t2 (pre ++ post) hnopre]
      simp [voteScore_append, voteScore_cons, voteScore_nil]
      ring
    · have hno : ∀ v ∈ l, v.user ≠ voter := by
        intro v hv hvu
        exact hmem (hvu ▸ List.mem_map_of_mem Vote.user hv)
      rw [castVoteList_not_voted voter t l hno]
      rw [castVoteList_found_same voter t l [] hno]
      simp
  · intro hno
    rw [castVoteList_not_voted voter t l hno]
    simp [voteScore_append, voteScore_cons, voteScore_nil]
  · intro pre t2 post heq hpre ht2
    rw [heq, castVoteList_found_other voter t t2 pre post hpre ht2]
    simp [voteScore_append, voteScore_cons]
    cases t <;> cases t2 <;> simp at ht2 ⊢ <;> ring

theorem claim7_witness :
    ((([⟨1, VoteType.upvote⟩] : List Vote).map Vote.user).Nodup →
     (∀ v ∈ ([⟨1, VoteType.upvote⟩] : List Vote), v.user = 1 → v.type = VoteType.upvote) →
      voteScore (castVoteList 1 VoteType.upvote
        (castVoteList 1 VoteType.upvote [⟨1, VoteType.upvote⟩]).1).1 =
        voteScore [⟨1, VoteType.upvote⟩]) ∧
    ((∀ v ∈ ([⟨1, VoteType.upvote⟩] : List Vote), v.user ≠ 1) →
      voteScore (castVoteList 1 VoteType.upvote [⟨1, VoteType.upvote⟩]).1 =
        voteScore [⟨1, VoteType.upvote⟩] +
          (if VoteType.upvote = VoteType.upvote then 1 else -1)) ∧
    (∀ pre t2 post, ([⟨1, VoteType.upvote⟩] : List Vote) = pre ++ ⟨1, t2⟩ :: post →
      (∀ v ∈ pre, v.user ≠ 1) → t2 ≠ VoteType.upvote →
      voteScore (castVoteList 1 VoteType.upvote [⟨1, VoteType.upvote⟩]).1 =
        voteScore [⟨1, VoteType.upvote⟩] +
          (if VoteType.upvote = VoteType.upvote then 2 else -2)) :=
  claim7_toggle_flip [⟨1, VoteType.upvote⟩] 1 VoteType.upvote

/-- C8 counterexample: creating a thread with tags ["React", "react"]
resolves both names to the single lowercase tag `react`, but its usage
counter ends at 2, not 1: the loop increments once per submitted name,
with no per-thread deduplication. -/
theorem claim8_counterexample :
    (processTags ["React", "react"] [] 0).1.map TagRec.usageCount ≠ [1] ∧
    (processTags ["React", "react"] [] 0).1.map TagRec.usageCount = [2] := by
  constructor <;> decide

/-- C8 (amended): a thread-create request with tags ["React", "react"]
resolves both names to the single tag `react` (exactly one tag document is
created), but the tag's usage counter is incremented once per submitted
name — twice for this request — and the thread's tag id list references
the same tag twice. -/
theorem claim8_tag_processing :
    processTags ["React", "react"] [] 0 = ([TagRec.mk 0 "react" 2], [0, 0], 1) := by
  decide

/-- C9 counterexample: the positional `$set {"tags.$": target}` of
updateMany rewrites only the first matching array element per thread, so
for a thread whose tags array references the source tag twice ([1, 1]),
merging tag 1 into tag 2 leaves the array [2, 1]: a reference to the
deleted source tag survives, refuting "no thread still references the
source after the merge". -/
theorem claim9_counterexample :
    mergeTags (TagStore.mk [TagRec.mk 1 "a" 2, TagRec.mk 2 "b" 1] [[1, 1]]) 1 (some 2) =
      Except.ok (TagStore.mk [TagRec.mk 2 "b" 3] [[2, 1]]) ∧
    ¬ (∀ ts ∈ ([[2, 1]] : List (List Nat)), (1 : Nat) ∉ ts) := by
  constructor
  · rfl
  · decide

/-- C9 (amended): merging a source tag into a distinct target tag sets the
target's usage counter to the sum of the two counters, deletes the source
tag, and repoints the first source reference in each thread's tags array
(the positional update rewrites one element per thread); hence when every
thread references the source at most once, no thread still references the
source after the merge. -/
theorem claim9_tag_merge (st : TagStore) (src tgt : TagRec) (targetId : Nat)
    (hs : st.tags.find? (fun x => x.tid = src.tid) = some src)
    (ht : st.tags.find? (fun x => x.tid = targetId) = some tgt)
    (hne : src.tid ≠ targetId)
    (hdup : ∀ ts ∈ st.threads, List.count src.tid ts ≤ 1) :
    ∃ st2, mergeTags st src.tid (some targetId) = Except.ok st2 ∧
      (∀ ts ∈ st2.threads, src.tid ∉ ts) ∧
      st2.tags.find? (fun x => x.tid = targetId) =
        some (TagRec.mk tgt.tid tgt.name (tgt.usageCount + src.usageCount)) ∧
      st2.tags.find? (fun x => x.tid = src.tid) = none := by
  have hmerge : mergeTags st src.tid (some targetId) = Except.ok (TagStore.mk
      ((st.tags.map (fun x => if x.tid = targetId then
          TagRec.mk x.tid x.name (x.usageCount + src.usageCount) else x)).filter
        (fun x => x.tid ≠ src.tid))
      (st.threads.map (fun ts =>
        if src.tid ∈ ts then setFirstOcc src.tid targetId ts else ts))) := by
    simp [mergeTags, hs, ht, hne]
  refine ⟨_, hmerge, ?_, ?_, ?_⟩
  · intro ts2 hts2
    simp only [List.mem_map] at hts2
    obtain ⟨ts, hts, hts2eq⟩ := hts2
    rw [← hts2eq]
    by_cases hmem : src.tid ∈ ts
    · rw [if_pos hmem]
      exact setFirstOcc_not_mem src.tid targetId ts hne (hdup ts hts)
    · rw [if_neg hmem]
      exact hmem
  · exact merged_find_target st.tags src.tid targetId src.usageCount tgt ht
      (Ne.symm hne)
  · exact merged_find_source st.tags src.tid targetId src.usageCount

theorem claim9_witness :
    ((TagStore.mk [TagRec.mk 1 "a" 2, TagRec.mk 2 "b" 3] [[1], [2], []]).tags.find?
        (fun x => x.tid = (TagRec.mk 1 "a" 2).tid) = some (TagRec.mk 1 "a" 2) ∧
     (TagStore.mk [TagRec.mk 1 "a" 2, TagRec.mk 2 "b" 3] [[1], [2], []]).tags.find?
        (fun x => x.tid = 2) = some (TagRec.mk 2 "b" 3) ∧
     (TagRec.mk 1 "a" 2).tid ≠ 2 ∧
     (∀ ts ∈ (TagStore.mk [TagRec.mk 1 "a" 2, TagRec.mk 2 "b" 3] [[1], [2], []]).threads,
       List.count (TagRec.mk 1 "a" 2).tid ts ≤ 1)) ∧
    (∃ st2, mergeTags (TagStore.mk [TagRec.mk 1 "a" 2, TagRec.mk 2 "b" 3] [[1], [2], []])
        (TagRec.mk 1 "a" 2).tid (some 2) = Except.ok st2 ∧
      (∀ ts ∈ st2.threads, (TagRec.mk 1 "a" 2).tid ∉ ts) ∧
      st2.tags.find? (fun x => x.tid = 2) =
        some (TagRec.mk (TagRec.mk 2 "b" 3).tid (TagRec.mk 2 "b" 3).name
          ((TagRec.mk 2 "b" 3).usageCount + (TagRec.mk 1 "a" 2).usageCount)) ∧
      st2.tags.find? (fun x => x.tid = (TagRec.mk 1 "a" 2).tid) = none) :=
  ⟨⟨by decide, by decide, by decide, by decide⟩,
   claim9_tag_merge (TagStore.mk [TagRec.mk 1 "a" 2, TagRec.mk 2 "b" 3] [[1], [2], []])
     (TagRec.mk 1 "a" 2) (TagRec.mk 2 "b" 3) 2 (by decide) (by decide) (by decide)
     (by decide)⟩

/-- C10: in all three branches (add, toggle-off, flip) the vote score after
the cast equals the score before plus the returned delta, both for the
generic vote branching and as reported by the thread and reply vote
handlers, so the delta handed to the reputation update always equals the
change in the entity's vote score. -/
theorem claim10_delta_matches_score (l : List Vote) (voter : Nat) (t : VoteType) :
    voteScore (castVoteList voter t l).1 = voteScore l + (castVoteList voter t l).2 ∧
    (∀ (th th2 : Thread) (out : VoteOutcome) (s : String),
      parseVoteType s = some t →
      voteOnThread (some th) voter s = Except.ok (th2, out) →
      out.score = voteScore th.votes + out.voteChange) ∧
    (∀ (th th2 : Thread) (out : VoteOutcome) (s : String) (rid : Nat) (sub : Reply),
      parseVoteType s = some t →
      findReplyForest rid th.replies = some sub →
      voteOnReply (some th) voter rid s = Except.ok (th2, out) →
      out.score = voteScore sub.votes + out.voteChange) := by
  refine ⟨castVoteList_score voter t l, ?_, ?_⟩
  · intro th th2 out s hs hok
    rw [voteOnThread_some th voter s t hs] at hok
    simp only [Except.ok.injEq, Prod.mk.injEq] at hok
    rw [← hok.2]
    exact castVoteList_score voter t th.votes
  · intro th th2 out s rid sub hs hf hok
    obtain ⟨f2, hvt⟩ := vote_of_find rid voter t th.replies sub hf
    rw [voteOnReply_ok th voter rid s t f2 _ _ _ hs hvt] at hok
    simp only [Except.ok.injEq, Prod.mk.injEq] at hok
    rw [← hok.2]
    exact castVoteList_score voter t sub.votes

theorem claim10_witness :
    (voteScore (castVoteList 1 VoteType.upvote []).1 =
      voteScore [] + (castVoteList 1 VoteType.upvote []).2) ∧
    ((∀ (th th2 : Thread) (out : VoteOutcome) (s : String),
      parseVoteType s = some VoteType.upvote →
      voteOnThread (some th) 1 s = Except.ok (th2, out) →
      out.score = voteScore th.votes + out.voteChange) ∧
     (∀ (th th2 : Thread) (out : VoteOutcome) (s : String) (rid : Nat) (sub : Reply),
      parseVoteType s = some VoteType.upvote →
      findReplyForest rid th.replies = some sub →
      voteOnReply (some th) 1 rid s = Except.ok (th2, out) →
      out.score = voteScore sub.votes + out.voteChange)) :=
  ⟨(claim10_delta_matches_score [] 1 VoteType.upvote).1,
   (claim10_delta_matches_score [] 1 VoteType.upvote).2⟩
